import Mathlib

/-!
Shallow embedding of the request-dispatch core of `src/data_plane/worker_broker.ts`
(classes `PendingRequest`, `Worker`, `WorkerBroker`) and of the autoscaling shrink
path of the control plane's `DefaultController` (`doShrink`, `shrinkDraw`,
`mostWhatNWorkers` and friends).

Conventions of the embedding:
* machine integers of the source are `Nat`/`Int`; timestamps (`Date.now()`,
  `registerTime`, `startEpoch`, deadlines) are `Nat` epochs passed explicitly;
* asynchronous effects (delegate calls, promise resolution, telemetry records,
  `closeTraffic` initiation) are tracked as explicit fields of result records;
* the outcome of an external call (delegate `trigger`, token-bucket `acquire`,
  the data plane's `reduceCapacity` response) is a parameter of the function
  that performs it, so every function is a pure, executable transition.
-/

namespace Noslated

/-- Source `RequestQueueStatus` enum of the source. -/
inductive RequestQueueStatus where
  | PASS_THROUGH
  | QUEUEING
  deriving DecidableEq, Repr

/-- Source `CredentialStatus` enum of the source. -/
inductive CredentialStatus where
  | PENDING
  | BOUND
  deriving DecidableEq, Repr

/-- Source `PendingRequest`: one queued invocation.  `startEpoch` is `Date.now()` at
construction; `available` is cleared by the deadline timer; the input payload,
deferred promise and timer handle are not data the claims depend on, so only
the identifying metadata is carried. -/
structure PendingRequest where
  requestId : String
  startEpoch : Nat
  deadline : Nat
  available : Bool
  deriving DecidableEq, Repr

/-- Source `Worker`: handle onto one running worker process (class `Worker` of the
source).  `activeRequestCount` starts at 0 and `trafficOff` at `false` in the
constructor. -/
structure Worker where
  name : String
  credential : String
  activeRequestCount : Nat
  trafficOff : Bool
  disposable : Bool
  deriving DecidableEq, Repr

/-- The slice of `RawWithDefaultsFunctionProfile` the broker reads:
`worker.disposable`, `worker.maxActivateRequests`, `rateLimit` (presence only),
`worker.disableRequestQueue`, `worker.fastFailRequestsOnStarting`. -/
structure Profile where
  disposable : Bool
  maxActivateRequests : Nat
  hasRateLimit : Bool
  disableRequestQueue : Bool
  fastFailRequestsOnStarting : Bool
  deriving DecidableEq, Repr

/-- Source `WorkerItem` of the source: one entry of the broker's credential map. -/
structure WorkerItem where
  status : CredentialStatus
  name : String
  worker : Option Worker
  deriving DecidableEq, Repr

/-- Source `WorkerBroker` state: the pending request queue (source `List`, FIFO),
its status flag, the worker heap array `_workerHeap` (as a list) and the
credential map `_workerMap` (as an association list). -/
structure BrokerState where
  profile : Profile
  requestQueue : List PendingRequest
  requestQueueStatus : RequestQueueStatus
  workers : List Worker
  workerMap : List (String × WorkerItem)
  deriving DecidableEq, Repr

/-- Getter `WorkerBroker.maxActivateRequests`: 1 when disposable, else the
profile value. -/
def BrokerState.maxActivateRequests (b : BrokerState) : Nat :=
  if b.profile.disposable then 1 else b.profile.maxActivateRequests

/-- Source `Worker.isWorkerFree()`: false when `trafficOff`, else
`broker.maxActivateRequests > activeRequestCount`. -/
def isWorkerFree (maxA : Nat) (w : Worker) : Bool :=
  if w.trafficOff then false else decide (w.activeRequestCount < maxA)

/-- The heapify key of `getAvailableWorker`:
`it.trafficOff ? Infinity : it.activeRequestCount`.  `none` stands for
`Infinity`. -/
def heapKey (w : Worker) : Option Nat :=
  if w.trafficOff then none else some w.activeRequestCount

/-- Ordering on heap keys; `none` (`Infinity`) is above every number. -/
def keyLe : Option Nat → Option Nat → Bool
  | _, none => true
  | none, some _ => false
  | some a, some b => decide (a ≤ b)

/-- Model of `MinHeap.heapify(this._workerHeap, key)` followed by reading
`this._workerHeap[0]`: the root of a min-heap is an element of the array
minimal under the key (the only property of the heap the source relies on).
Ties keep the earlier element. -/
def heapRoot : List Worker → Option Worker
  | [] => none
  | w :: ws =>
    match heapRoot ws with
    | none => some w
    | some m => some (if keyLe (heapKey w) (heapKey m) then w else m)

/-- Source `WorkerBroker.getAvailableWorker()`: heapify, take the root, and return it
only when it is not drained and below the concurrency cap. -/
def getAvailableWorker (b : BrokerState) : Option Worker :=
  match heapRoot b.workers with
  | none => none
  | some w =>
    if w.trafficOff = false ∧ w.activeRequestCount < b.maxActivateRequests then
      some w
    else
      none

/-- The mutable annotations `Worker.pipe` writes onto a successful
`TriggerResponse`. -/
structure TriggerResp where
  queueing : Nat
  workerName : String
  deriving DecidableEq, Repr

/-- The annotations `Worker.pipe` writes onto a delegate error before
rethrowing it. -/
structure TriggerErrInfo where
  message : String
  queueing : Nat
  workerName : String
  deriving DecidableEq, Repr

/-- Result of one `Worker.pipe` call up to the point where the call returns or
throws.  `worker` is the worker state at that point; `finishAttached` records
whether the `ret.finish().finally(...)` continuation (the decrement of
`activeRequestCount`, the `downToZero` emission and `continueConsumeQueue`)
was attached. -/
structure PipeResult where
  worker : Worker
  result : Except TriggerErrInfo TriggerResp
  finishAttached : Bool
  deriving Repr

/-- Source `Worker.pipe`: pre-increments `activeRequestCount`; on delegate success
annotates the response with `queueing`/`workerName` and attaches the
finish-callback; on delegate failure annotates the error and rethrows without
attaching any decrement.  `trigger` is the outcome of
`delegate.trigger(credential, 'invoke', ...)`. -/
def pipe (w : Worker) (waitMs : Nat) (trigger : Except String Unit) : PipeResult :=
  let w1 : Worker := { w with activeRequestCount := w.activeRequestCount + 1 }
  match trigger with
  | .ok _ => ⟨w1, .ok ⟨waitMs, w.name⟩, true⟩
  | .error e => ⟨w1, .error ⟨e, waitMs, w.name⟩, false⟩

/-- The `ret.finish().finally(...)` continuation of `Worker.pipe`: decrements
`activeRequestCount`, emits `downToZero` when it reaches 0, and calls
`continueConsumeQueue` (which re-enters `tryConsumeQueue` when the worker is
free and not disposable).  Returns the new worker state, whether `downToZero`
was emitted, and whether queue consumption was continued. -/
def onResponseFinish (maxA : Nat) (w : Worker) : Worker × Bool × Bool :=
  let w' : Worker := { w with activeRequestCount := w.activeRequestCount - 1 }
  (w', decide (w'.activeRequestCount = 0),
    !w'.disposable && isWorkerFree maxA w')

theorem keyLe_refl (a : Option Nat) : keyLe a a = true := by
  cases a <;> simp [keyLe]

theorem keyLe_total (a b : Option Nat) : keyLe a b = false → keyLe b a = true := by
  cases a <;> cases b <;> simp [keyLe] <;> omega

theorem keyLe_trans (a b c : Option Nat) :
    keyLe a b = true → keyLe b c = true → keyLe a c = true := by
  cases a <;> cases b <;> cases c <;> simp [keyLe] <;> omega

theorem heapRoot_eq_none (l : List Worker) : heapRoot l = none ↔ l = [] := by
  cases l with
  | nil => simp [heapRoot]
  | cons x xs =>
    simp only [heapRoot]
    cases heapRoot xs <;> simp

theorem heapRoot_mem (l : List Worker) : ∀ w, heapRoot l = some w → w ∈ l := by
  induction l with
  | nil => intro w h; simp [heapRoot] at h
  | cons x xs ih =>
    intro w h
    simp only [heapRoot] at h
    cases hx : heapRoot xs with
    | none =>
      rw [hx] at h
      simp only [Option.some.injEq] at h
      simp [← h]
    | some m =>
      rw [hx] at h
      simp only [Option.some.injEq] at h
      by_cases hk : keyLe (heapKey x) (heapKey m) = true
      · rw [if_pos hk] at h; simp [← h]
      · rw [if_neg hk] at h
        exact List.mem_cons_of_mem x (h ▸ ih m hx)

theorem heapRoot_min (l : List Worker) :
    ∀ w, heapRoot l = some w → ∀ u ∈ l, keyLe (heapKey w) (heapKey u) = true := by
  induction l with
  | nil => intro w h; simp [heapRoot] at h
  | cons x xs ih =>
    intro w h u hu
    simp only [heapRoot] at h
    cases hx : heapRoot xs with
    | none =>
      rw [hx] at h
      simp only [Option.some.injEq] at h
      have hxs : xs = [] := (heapRoot_eq_none xs).1 hx
      subst hxs
      rcases List.mem_singleton.1 hu with rfl
      rw [← h]; exact keyLe_refl _
    | some m =>
      rw [hx] at h
      simp only [Option.some.injEq] at h
      rcases List.mem_cons.1 hu with hux | hu'
      · rw [hux]
        by_cases hk : keyLe (heapKey x) (heapKey m) = true
        · rw [if_pos hk] at h; rw [← h]; exact keyLe_refl _
        · rw [if_neg hk] at h; rw [← h]
          exact keyLe_total _ _ (Bool.eq_false_iff.2 hk)
      · have hmin := ih m hx u hu'
        by_cases hk : keyLe (heapKey x) (heapKey m) = true
        · rw [if_pos hk] at h; rw [← h]
          exact keyLe_trans _ _ _ hk hmin
        · rw [if_neg hk] at h; rw [← h]; exact hmin

/-- C2.  `getAvailableWorker` returns a worker `w` only when `w` is in the
worker set, is not drained (`trafficOff = false`) and is strictly below
`maxActivateRequests`, and any returned worker has the minimum
`activeRequestCount` among workers with `trafficOff = false` (drained workers
rank as infinite).  Conversely, when every non-drained worker is already at
`maxActivateRequests` (in particular when no worker exists), it returns
nothing. -/
theorem getAvailableWorker_spec (b : BrokerState) :
    (∀ w, getAvailableWorker b = some w →
      w ∈ b.workers ∧ w.trafficOff = false ∧
      w.activeRequestCount < b.maxActivateRequests ∧
      ∀ u ∈ b.workers, u.trafficOff = false →
        w.activeRequestCount ≤ u.activeRequestCount) ∧
    ((∀ u ∈ b.workers, u.trafficOff = false →
        b.maxActivateRequests ≤ u.activeRequestCount) →
      getAvailableWorker b = none) := by
  constructor
  · intro w hw
    unfold getAvailableWorker at hw
    cases hr : heapRoot b.workers with
    | none => rw [hr] at hw; exact absurd hw (by simp)
    | some r =>
      rw [hr] at hw
      have hw2 : (if r.trafficOff = false ∧ r.activeRequestCount < b.maxActivateRequests
          then some r else none) = some w := hw
      by_cases hcond : r.trafficOff = false ∧ r.activeRequestCount < b.maxActivateRequests
      · rw [if_pos hcond] at hw2
        simp only [Option.some.injEq] at hw2
        subst hw2
        refine ⟨heapRoot_mem _ _ hr, hcond.1, hcond.2, ?_⟩
        intro u hu hut
        have := heapRoot_min _ _ hr u hu
        simp only [heapKey, hcond.1, hut, if_false] at this
        simpa [keyLe] using this
      · rw [if_neg hcond] at hw2; exact absurd hw2 (by simp)
  · intro hall
    unfold getAvailableWorker
    cases hr : heapRoot b.workers with
    | none => rfl
    | some r =>
      show (if r.trafficOff = false ∧ r.activeRequestCount < b.maxActivateRequests
          then some r else none) = none
      have hneg : ¬(r.trafficOff = false ∧ r.activeRequestCount < b.maxActivateRequests) := by
        rintro ⟨h1, h2⟩
        exact absurd h2 (Nat.not_lt.2 (hall r (heapRoot_mem _ _ hr) h1))
      rw [if_neg hneg]

/-- C2 witness: on a broker with two live workers (counts 2 and 5, cap 10) the
selector returns the count-2 worker and certifies the minimality facts; on a
broker whose only live worker is at the cap it returns nothing. -/
theorem getAvailableWorker_spec_witness :
    (Worker.mk "w1" "c1" 2 false false ∈
        (BrokerState.mk ⟨false, 10, false, false, false⟩ [] .PASS_THROUGH
          [⟨"w0", "c0", 5, false, false⟩, ⟨"w1", "c1", 2, false, false⟩] []).workers ∧
      (Worker.mk "w1" "c1" 2 false false).trafficOff = false ∧
      (Worker.mk "w1" "c1" 2 false false).activeRequestCount <
        (BrokerState.mk ⟨false, 10, false, false, false⟩ [] .PASS_THROUGH
          [⟨"w0", "c0", 5, false, false⟩, ⟨"w1", "c1", 2, false, false⟩] []).maxActivateRequests ∧
      ∀ u ∈ (BrokerState.mk ⟨false, 10, false, false, false⟩ [] .PASS_THROUGH
          [⟨"w0", "c0", 5, false, false⟩, ⟨"w1", "c1", 2, false, false⟩] []).workers,
        u.trafficOff = false →
        (Worker.mk "w1" "c1" 2 false false).activeRequestCount ≤ u.activeRequestCount) ∧
    getAvailableWorker
      (BrokerState.mk ⟨false, 3, false, false, false⟩ [] .PASS_THROUGH
        [⟨"w0", "c0", 3, false, false⟩] []) = none := by
  refine ⟨(getAvailableWorker_spec _).1 _ (by decide), (getAvailableWorker_spec _).2 ?_⟩
  decide

/-- C10.  When the delegate `trigger` call inside `Worker.pipe` throws, the
worker's `activeRequestCount` stays at its pre-incremented value (one above
the value before the call) and no finish continuation — hence no decrement,
no `downToZero`, no queue-consumption — is attached; the continuation is
attached only on the success path, where the response-finish callback restores
the count. -/
theorem pipe_error_keeps_activeRequestCount (w : Worker) (waitMs : Nat) (e : String) (maxA : Nat) :
    (pipe w waitMs (.error e)).worker.activeRequestCount = w.activeRequestCount + 1 ∧
    (pipe w waitMs (.error e)).finishAttached = false ∧
    (pipe w waitMs (.error e)).result = .error ⟨e, waitMs, w.name⟩ ∧
    (pipe w waitMs (.ok ())).finishAttached = true ∧
    (onResponseFinish maxA (pipe w waitMs (.ok ())).worker).1.activeRequestCount =
      w.activeRequestCount := by
  refine ⟨rfl, rfl, rfl, rfl, ?_⟩
  simp [pipe, onResponseFinish]

/-- Error codes of `RpcError` the broker raises (`RpcStatus` of the source). -/
inductive RpcStatus where
  | RESOURCE_EXHAUSTED
  | DEADLINE_EXCEEDED
  deriving DecidableEq, Repr

/-- The `List.remove(node)` of the source's linked list: removes the first
occurrence of the given element. -/
def removeFirst (r : PendingRequest) : List PendingRequest → List PendingRequest
  | [] => []
  | x :: xs => if x = r then xs else x :: removeFirst r xs

/-- Successful `_queueRequest` path (`#checkRequestQueue` passed): set
`requestQueueStatus = QUEUEING`, then `createPendingRequest` pushes the
request to the tail of the queue. -/
def queueRequest (b : BrokerState) (r : PendingRequest) : BrokerState :=
  { b with
    requestQueueStatus := RequestQueueStatus.QUEUEING,
    requestQueue := b.requestQueue ++ [r] }

/-- Observable outcome of a pending request's deadline timer firing: the timer
callback (in the `PendingRequest` constructor) clears `available` and emits
`timeout`; the handler installed by `createPendingRequest` removes the node
from the queue, rejects with an `RpcError` of code `DEADLINE_EXCEEDED` and
records `Date.now() - startEpoch` into the queued-request duration
histogram. -/
structure TimeoutResult where
  request : PendingRequest
  state : BrokerState
  rejectedCode : RpcStatus
  histogramSamples : List Nat
  deriving DecidableEq, Repr

/-- The deadline-timer eviction path of `createPendingRequest`.  `now` is
`Date.now()` at the moment the timer fires. -/
def fireTimeout (b : BrokerState) (r : PendingRequest) (now : Nat) : TimeoutResult :=
  { request := { r with available := false },
    state := { b with requestQueue := removeFirst r b.requestQueue },
    rejectedCode := RpcStatus.DEADLINE_EXCEEDED,
    histogramSamples := [now - r.startEpoch] }

/-- Per-entry effects of the fast-fail loop: `stopTimer()`, `reject(err)` with
the supplied message, and one histogram record of `now - startEpoch`. -/
structure FailEffect where
  timerStopped : Bool
  message : String
  histogramSample : Nat
  deriving DecidableEq, Repr

/-- The body of the `for (const pendingRequest of requestQueue.values())` loop
of `fastFailAllPendingsDueToStartError`, entry by entry. -/
def rejectPendings (message : String) (now : Nat) : List PendingRequest → List FailEffect
  | [] => []
  | r :: rs => ⟨true, message, now - r.startEpoch⟩ :: rejectPendings message now rs

/-- Source `WorkerBroker.fastFailAllPendingsDueToStartError`: a no-op unless the
start-error is fatal or the profile opts into `fastFailRequestsOnStarting`;
otherwise the queue is replaced by a fresh empty list and every formerly
queued entry has its timer stopped, is rejected with an error carrying the
request's message, and gets one histogram record.  Note the
`requestQueueStatus` field is left untouched on both paths. -/
def fastFailAllPendingsDueToStartError (b : BrokerState) (fatal : Bool)
    (message : String) (now : Nat) : BrokerState × List FailEffect :=
  if fatal = false ∧ b.profile.fastFailRequestsOnStarting = false then
    (b, [])
  else
    ({ b with requestQueue := [] }, rejectPendings message now b.requestQueue)

/-- Result of the `while` loop of `tryConsumeQueue`: the worker state after
the synchronous parts of the dispatched `pipe` calls, the dispatched entries
in order, the remaining queue, and how many `closeTraffic` initiations were
scheduled (the disposable `.finally` handler). -/
structure ConsumeResult where
  worker : Worker
  dispatched : List PendingRequest
  queue : List PendingRequest
  closeTrafficCalls : Nat
  deriving DecidableEq, Repr

/-- The `while` loop of `tryConsumeQueue`: while the queue is non-empty and
the worker is free, shift the head; skip entries whose `available` flag was
cleared by their timer; otherwise stop the entry's timer and `pipe` it (the
synchronous part of `pipe` increments `activeRequestCount`); a disposable
broker consumes at most one entry and schedules `closeTraffic`.  One
queued-request duration histogram record is emitted per dispatched entry
(1:1 with `dispatched`). -/
def consumeLoop (disposable : Bool) (maxA : Nat) : Worker → List PendingRequest → ConsumeResult
  | w, [] => ⟨w, [], [], 0⟩
  | w, r :: rs =>
    if isWorkerFree maxA w = false then ⟨w, [], r :: rs, 0⟩
    else if r.available = false then consumeLoop disposable maxA w rs
    else
      let w' : Worker := { w with activeRequestCount := w.activeRequestCount + 1 }
      if disposable then ⟨w', [r], rs, 1⟩
      else
        let res := consumeLoop disposable maxA w' rs
        ⟨res.worker, r :: res.dispatched, res.queue, res.closeTrafficCalls⟩

/-- Source `WorkerBroker.tryConsumeQueue(notThatBusyWorker)`: run the loop, then set
`requestQueueStatus = PASS_THROUGH` when the queue has emptied. -/
def tryConsumeQueue (b : BrokerState) (w : Worker) : BrokerState × ConsumeResult :=
  let res := consumeLoop b.profile.disposable b.maxActivateRequests w b.requestQueue
  ({ b with
      requestQueue := res.queue,
      requestQueueStatus :=
        if res.queue.isEmpty then RequestQueueStatus.PASS_THROUGH
        else b.requestQueueStatus },
   res)

/-- One queue-mutating operation on a broker, as named by the spec: enqueue
via `invoke`/`_queueRequest`, deadline-timer eviction, fast-fail of all
pendings, and a queue drain by a free worker. -/
inductive BrokerOp where
  | enqueue (r : PendingRequest)
  | timerFire (r : PendingRequest) (now : Nat)
  | fastFail (fatal : Bool) (message : String) (now : Nat)
  | consume (w : Worker)
  deriving Repr

/-- Applies one queue-mutating operation to the broker state. -/
def applyOp (b : BrokerState) : BrokerOp → BrokerState
  | .enqueue r => queueRequest b r
  | .timerFire r now => (fireTimeout b r now).state
  | .fastFail fatal message now =>
    (fastFailAllPendingsDueToStartError b fatal message now).1
  | .consume w => (tryConsumeQueue b w).1

/-- The direction of the spec's queue-status invariant that the code actually
maintains: `PASS_THROUGH` implies an empty request queue. -/
def statusQueueInv (b : BrokerState) : Prop :=
  b.requestQueueStatus = RequestQueueStatus.PASS_THROUGH → b.requestQueue = []

/-- Errors `WorkerBroker.invoke` can produce: the rate-limit rejection, the
queue-disabled rejection of `#checkRequestQueue`, and a propagated `pipe`
failure. -/
inductive InvokeError where
  | rateLimitExceeded
  | noAvailableWorkerProcess
  | pipeFailure (message : String)
  deriving DecidableEq, Repr

/-- Observable result of one `WorkerBroker.invoke` call: the broker state
after its synchronous effects, the outcome, the request appended to the queue
(if any), the worker the input was piped to (if any), and whether
`closeTraffic` was initiated on that worker (the disposable path's `finally`
block). -/
structure InvokeResult where
  state : BrokerState
  outcome : Except InvokeError Unit
  enqueued : Option PendingRequest
  pipedWorker : Option Worker
  closeTrafficCalled : Bool
  deriving Repr

/-- Source `this.tokenBucket?.acquire() ?? true`: the token bucket exists exactly when
the profile configures a rate limit (broker constructor); `bucketAcquire` is
the outcome the bucket would produce. -/
def acquiredToken (b : BrokerState) (bucketAcquire : Bool) : Bool :=
  if b.profile.hasRateLimit then bucketAcquire else true

/-- Source `WorkerBroker.invoke(inputStream, metadata)`.  `req` is the pending request
`_queueRequest` would create; `triggerOk`/`triggerErrMessage` parameterize the
outcome of the delegate `trigger` inside `worker.pipe`. -/
def invoke (b : BrokerState) (bucketAcquire : Bool) (req : PendingRequest)
    (triggerOk : Bool) (triggerErrMessage : String) : InvokeResult :=
  if acquiredToken b bucketAcquire = false then
    ⟨b, .error .rateLimitExceeded, none, none, false⟩
  else
    match b.requestQueueStatus with
    | .QUEUEING =>
      if b.profile.disableRequestQueue then
        ⟨b, .error .noAvailableWorkerProcess, none, none, false⟩
      else
        ⟨queueRequest b req, .ok (), some req, none, false⟩
    | .PASS_THROUGH =>
      match getAvailableWorker b with
      | none =>
        if b.profile.disableRequestQueue then
          ⟨b, .error .noAvailableWorkerProcess, none, none, false⟩
        else
          ⟨queueRequest b req, .ok (), some req, none, false⟩
      | some w =>
        if triggerOk then
          ⟨b, .ok (), none, some w, b.profile.disposable⟩
        else
          ⟨b, .error (.pipeFailure triggerErrMessage), none, some w, b.profile.disposable⟩

theorem isEmpty_true_iff (l : List PendingRequest) : l.isEmpty = true ↔ l = [] := by
  cases l <;> simp

/-- C1 (amended).  Every queue-mutating operation preserves the invariant
`queueStatus = PASS_THROUGH → requestQueue = []`.  (The converse direction of
the claimed equivalence is refuted by `passThrough_iff_fails_after_fastFail`.) -/
theorem applyOp_preserves_passThrough_inv (b : BrokerState) (op : BrokerOp)
    (h : statusQueueInv b) : statusQueueInv (applyOp b op) := by
  cases op with
  | enqueue r =>
    intro hs
    simp [applyOp, queueRequest] at hs
  | timerFire r now =>
    intro hs
    simp only [applyOp, fireTimeout] at hs ⊢
    rw [h hs]
    rfl
  | fastFail fatal message now =>
    intro hs
    simp only [applyOp, fastFailAllPendingsDueToStartError] at hs ⊢
    by_cases hc : fatal = false ∧ b.profile.fastFailRequestsOnStarting = false
    · rw [if_pos hc] at hs ⊢
      exact h hs
    · rw [if_neg hc] at hs ⊢
  | consume w =>
    intro hs
    simp only [applyOp, tryConsumeQueue] at hs ⊢
    by_cases hq :
      (consumeLoop b.profile.disposable b.maxActivateRequests w b.requestQueue).queue.isEmpty = true
    · exact (isEmpty_true_iff _).1 hq
    · rw [if_neg hq] at hs
      rw [h hs]
      rfl

/-- Shared concrete exemplars. -/
def pEx : Profile := ⟨false, 10, false, false, false⟩

def rEx : PendingRequest := ⟨"req-1", 100, 600, true⟩

def bEx : BrokerState := ⟨pEx, [], .PASS_THROUGH, [], []⟩

/-- C1 witness: the invariant holds after enqueueing into a fresh broker. -/
theorem applyOp_preserves_passThrough_inv_witness :
    statusQueueInv (applyOp bEx (.enqueue rEx)) :=
  applyOp_preserves_passThrough_inv bEx (.enqueue rEx) (fun _ => rfl)

/-- C1 counterexample.  Enqueue one request (status becomes `QUEUEING`), then
fast-fail all pendings with a fatal start error: the queue is emptied but
`requestQueueStatus` stays `QUEUEING`, so `queueStatus = PASS_THROUGH` is not
equivalent to queue emptiness after a queue-mutating operation. -/
theorem passThrough_iff_fails_after_fastFail :
    ¬(((applyOp (applyOp bEx (.enqueue rEx)) (.fastFail true "start error" 200)).requestQueueStatus =
        RequestQueueStatus.PASS_THROUGH) ↔
      (applyOp (applyOp bEx (.enqueue rEx)) (.fastFail true "start error" 200)).requestQueue = []) := by
  decide

theorem removeFirst_length (r : PendingRequest) (l : List PendingRequest) (h : r ∈ l) :
    (removeFirst r l).length + 1 = l.length := by
  induction l with
  | nil => cases h
  | cons x xs ih =>
    by_cases hx : x = r
    · simp [removeFirst, hx]
    · have hr : r ∈ xs := by
        rcases List.mem_cons.1 h with h1 | h1
        · exact absurd h1.symm hx
        · exact h1
      simp only [removeFirst, if_neg hx, List.length_cons]
      rw [ih hr]

theorem removeFirst_not_mem (r : PendingRequest) (l : List PendingRequest)
    (hnd : l.Nodup) (hmem : r ∈ l) : r ∉ removeFirst r l := by
  induction l with
  | nil => cases hmem
  | cons x xs ih =>
    intro hcon
    by_cases hx : x = r
    · subst hx
      simp only [removeFirst, if_pos rfl] at hcon
      exact (List.nodup_cons.1 hnd).1 hcon
    · simp only [removeFirst, if_neg hx] at hcon
      rcases List.mem_cons.1 hcon with h1 | h1
      · exact hx h1.symm
      · have hr : r ∈ xs := by
          rcases List.mem_cons.1 hmem with h2 | h2
          · exact absurd h2.symm hx
          · exact h2
        exact ih (List.nodup_cons.1 hnd).2 hr h1

/-- C4.  When a queued pending request's deadline timer fires, the request's
`available` flag is cleared, its node leaves the request queue (the queue
shrinks by one and no longer holds the request), its promise is rejected with
a `DEADLINE_EXCEEDED` error, and the queued-request duration histogram records
the elapsed wait `now - startEpoch`. -/
theorem pendingRequest_timeout_spec (b : BrokerState) (r : PendingRequest) (now : Nat)
    (hmem : r ∈ b.requestQueue) (hnd : b.requestQueue.Nodup) :
    (fireTimeout b r now).request.available = false ∧
    r ∉ (fireTimeout b r now).state.requestQueue ∧
    (fireTimeout b r now).state.requestQueue.length + 1 = b.requestQueue.length ∧
    (fireTimeout b r now).rejectedCode = RpcStatus.DEADLINE_EXCEEDED ∧
    (fireTimeout b r now).histogramSamples = [now - r.startEpoch] :=
  ⟨rfl, removeFirst_not_mem r b.requestQueue hnd hmem,
    removeFirst_length r b.requestQueue hmem, rfl, rfl⟩

def r1Ex : PendingRequest := ⟨"r1", 5, 500, true⟩

def r2Ex : PendingRequest := ⟨"r2", 9, 500, true⟩

def bQueuedEx : BrokerState := ⟨pEx, [r1Ex, r2Ex], .QUEUEING, [], []⟩

/-- C4 witness: timer of the first of two queued requests fires at epoch 120. -/
theorem pendingRequest_timeout_spec_witness :
    (fireTimeout bQueuedEx r1Ex 120).request.available = false ∧
    r1Ex ∉ (fireTimeout bQueuedEx r1Ex 120).state.requestQueue ∧
    (fireTimeout bQueuedEx r1Ex 120).state.requestQueue.length + 1 =
      bQueuedEx.requestQueue.length ∧
    (fireTimeout bQueuedEx r1Ex 120).rejectedCode = RpcStatus.DEADLINE_EXCEEDED ∧
    (fireTimeout bQueuedEx r1Ex 120).histogramSamples = [120 - r1Ex.startEpoch] :=
  pendingRequest_timeout_spec bQueuedEx r1Ex 120 (by decide) (by decide)

theorem rejectPendings_eq_map (message : String) (now : Nat) (l : List PendingRequest) :
    rejectPendings message now l =
      l.map (fun r => ⟨true, message, now - r.startEpoch⟩) := by
  induction l with
  | nil => rfl
  | cons r rs ih => simp [rejectPendings, ih]

/-- C7.  `fastFailAllPendingsDueToStartError(req)`: when `req.fatal` holds or
the profile opts into `fastFailRequestsOnStarting`, the request queue is
replaced by an empty one and, for every formerly queued entry, the timer is
stopped, the entry is rejected with an error carrying the request's message,
and one histogram duration sample is recorded; otherwise the call is a no-op
that leaves the state and every entry untouched. -/
theorem fastFailAllPendings_spec (b : BrokerState) (fatal : Bool) (message : String) (now : Nat) :
    ((fatal = true ∨ b.profile.fastFailRequestsOnStarting = true) →
      (fastFailAllPendingsDueToStartError b fatal message now).1.requestQueue = [] ∧
      (fastFailAllPendingsDueToStartError b fatal message now).2 =
        b.requestQueue.map (fun r => ⟨true, message, now - r.startEpoch⟩) ∧
      (fastFailAllPendingsDueToStartError b fatal message now).2.length =
        b.requestQueue.length ∧
      ∀ e ∈ (fastFailAllPendingsDueToStartError b fatal message now).2,
        e.timerStopped = true ∧ e.message = message) ∧
    (fatal = false → b.profile.fastFailRequestsOnStarting = false →
      fastFailAllPendingsDueToStartError b fatal message now = (b, [])) := by
  constructor
  · intro hc
    have hcond : ¬(fatal = false ∧ b.profile.fastFailRequestsOnStarting = false) := by
      rcases hc with h | h <;> simp [h]
    unfold fastFailAllPendingsDueToStartError
    rw [if_neg hcond]
    refine ⟨rfl, rejectPendings_eq_map message now b.requestQueue,
      by rw [rejectPendings_eq_map]; exact List.length_map _ _, ?_⟩
    intro e he
    rw [rejectPendings_eq_map] at he
    rcases List.mem_map.1 he with ⟨r, _, hre⟩
    rw [← hre]
    exact ⟨rfl, rfl⟩
  · intro h1 h2
    unfold fastFailAllPendingsDueToStartError
    rw [if_pos ⟨h1, h2⟩]

/-- C7 witness: a fatal start error against a broker holding two queued
requests rejects both with the supplied message and empties the queue. -/
theorem fastFailAllPendings_spec_witness :
    (fastFailAllPendingsDueToStartError bQueuedEx true "worker start failed" 50).1.requestQueue = [] ∧
    (fastFailAllPendingsDueToStartError bQueuedEx true "worker start failed" 50).2 =
      bQueuedEx.requestQueue.map (fun r => ⟨true, "worker start failed", 50 - r.startEpoch⟩) ∧
    (fastFailAllPendingsDueToStartError bQueuedEx true "worker start failed" 50).2.length =
      bQueuedEx.requestQueue.length ∧
    ∀ e ∈ (fastFailAllPendingsDueToStartError bQueuedEx true "worker start failed" 50).2,
      e.timerStopped = true ∧ e.message = "worker start failed" :=
  (fastFailAllPendings_spec bQueuedEx true "worker start failed" 50).1 (Or.inl rfl)

/-- C9.  With a configured rate limit, a failed token-bucket `acquire` makes
`invoke` fail with `RESOURCE_EXHAUSTED` leaving the state untouched, with no
pending request enqueued and no worker dispatched; without a configured rate
limit admission always succeeds — `invoke` behaves exactly as if `acquire`
had returned `true`. -/
theorem invoke_rateLimit_spec (b : BrokerState) (req : PendingRequest)
    (triggerOk : Bool) (msg : String) :
    (b.profile.hasRateLimit = true →
      invoke b false req triggerOk msg =
        ⟨b, .error .rateLimitExceeded, none, none, false⟩) ∧
    (b.profile.hasRateLimit = false →
      ∀ acq, invoke b acq req triggerOk msg = invoke b true req triggerOk msg) := by
  constructor
  · intro h
    simp [invoke, acquiredToken, h]
  · intro h acq
    simp [invoke, acquiredToken, h]

def bRateEx : BrokerState := ⟨⟨false, 10, true, false, false⟩, [], .PASS_THROUGH, [], []⟩

/-- C9 witness: a rate-limited broker whose bucket denies the token rejects
the invocation with `RESOURCE_EXHAUSTED` and mutates nothing. -/
theorem invoke_rateLimit_spec_witness :
    invoke bRateEx false rEx true "" =
      ⟨bRateEx, .error .rateLimitExceeded, none, none, false⟩ :=
  (invoke_rateLimit_spec bRateEx rEx true "").1 rfl

theorem consumeLoop_disposable (maxA : Nat) (w : Worker) (q : List PendingRequest) :
    (consumeLoop true maxA w q).dispatched.length ≤ 1 ∧
    (consumeLoop true maxA w q).closeTrafficCalls =
      (consumeLoop true maxA w q).dispatched.length := by
  induction q generalizing w with
  | nil => simp [consumeLoop]
  | cons r rs ih =>
    by_cases hf : isWorkerFree maxA w = false
    · simp [consumeLoop, hf]
    · by_cases ha : r.available = false
      · simpa [consumeLoop, hf, ha] using ih w
      · simp [consumeLoop, hf, ha]

theorem invoke_piped_closeTraffic (b : BrokerState) (hd : b.profile.disposable = true)
    (acq : Bool) (req : PendingRequest) (triggerOk : Bool) (msg : String) :
    (invoke b acq req triggerOk msg).pipedWorker = none ∨
    (invoke b acq req triggerOk msg).closeTrafficCalled = true := by
  unfold invoke
  split
  · left; rfl
  · split
    · split
      · left; rfl
      · left; rfl
    · split
      · split
        · left; rfl
        · left; rfl
      · split
        · right; exact hd
        · right; exact hd

/-- C3.  On a disposable broker, `maxActivateRequests` is 1 regardless of the
profile value; `tryConsumeQueue` dispatches at most one available entry and
schedules `closeTraffic` once per dispatched entry; and the `PASS_THROUGH`
path of `invoke` initiates `closeTraffic` on any worker it piped to, whether
the pipe call succeeded or threw. -/
theorem disposable_single_dispatch (b : BrokerState) (w : Worker)
    (hd : b.profile.disposable = true) :
    b.maxActivateRequests = 1 ∧
    (tryConsumeQueue b w).2.dispatched.length ≤ 1 ∧
    (tryConsumeQueue b w).2.closeTrafficCalls =
      (tryConsumeQueue b w).2.dispatched.length ∧
    (∀ acq req triggerOk msg wkr,
      (invoke b acq req triggerOk msg).pipedWorker = some wkr →
      (invoke b acq req triggerOk msg).closeTrafficCalled = true) := by
  refine ⟨by simp [BrokerState.maxActivateRequests, hd], ?_, ?_, ?_⟩
  · show (consumeLoop b.profile.disposable b.maxActivateRequests w b.requestQueue).dispatched.length ≤ 1
    rw [hd]
    exact (consumeLoop_disposable b.maxActivateRequests w b.requestQueue).1
  · show (consumeLoop b.profile.disposable b.maxActivateRequests w b.requestQueue).closeTrafficCalls =
      (consumeLoop b.profile.disposable b.maxActivateRequests w b.requestQueue).dispatched.length
    rw [hd]
    exact (consumeLoop_disposable b.maxActivateRequests w b.requestQueue).2
  · intro acq req triggerOk msg wkr hp
    rcases invoke_piped_closeTraffic b hd acq req triggerOk msg with h | h
    · rw [hp] at h; exact absurd h (by simp)
    · exact h

def wDispEx : Worker := ⟨"wd", "cd", 0, false, true⟩

def bDispEx : BrokerState := ⟨⟨true, 7, false, false, false⟩, [r1Ex], .PASS_THROUGH, [wDispEx], []⟩

/-- C3 witness: a disposable broker (profile cap 7) has effective cap 1; its
queue drain dispatches the single queued entry and schedules one
`closeTraffic`; and an `invoke` whose pipe call throws still initiates
`closeTraffic` on the dispatched worker. -/
theorem disposable_single_dispatch_witness :
    bDispEx.maxActivateRequests = 1 ∧
    (tryConsumeQueue bDispEx wDispEx).2.dispatched.length ≤ 1 ∧
    (tryConsumeQueue bDispEx wDispEx).2.closeTrafficCalls =
      (tryConsumeQueue bDispEx wDispEx).2.dispatched.length ∧
    (invoke bDispEx true rEx false "boom").closeTrafficCalled = true := by
  have h := disposable_single_dispatch bDispEx wDispEx rfl
  exact ⟨h.1, h.2.1, h.2.2.1, h.2.2.2 true rEx false "boom" wDispEx (by decide)⟩

/-- Source `this._workerMap.get(credential)` on the association-list model. -/
def mapGet : List (String × WorkerItem) → String → Option WorkerItem
  | [], _ => none
  | (k, v) :: rest, c => if k = c then some v else mapGet rest c

/-- Source `this._workerMap.set(credential, item)`: replace in place, else append. -/
def mapSet : List (String × WorkerItem) → String → WorkerItem → List (String × WorkerItem)
  | [], c, it => [(c, it)]
  | (k, v) :: rest, c, it =>
    if k = c then (c, it) :: rest else (k, v) :: mapSet rest c it

/-- Source `WorkerBroker.isCredentialPending`:
`this._workerMap.get(credential)?.status === CredentialStatus.PENDING`. -/
def isCredentialPending (b : BrokerState) (credential : String) : Bool :=
  match mapGet b.workerMap credential with
  | some it => decide (it.status = CredentialStatus.PENDING)
  | none => false

/-- Errors `bindWorker` can throw: the not-registered rejection when the
credential is present but not `PENDING`, and a propagated delegate `init`
failure. -/
inductive BindError where
  | notRegisteredYet
  | initFailed
  deriving DecidableEq, Repr

/-- Observable result of one `bindWorker` call: the broker state afterwards,
the thrown error if any, whether `delegate.resetPeer(credential)` was invoked,
and whether `ContainerInstalled` was broadcast. -/
structure BindResult where
  state : BrokerState
  thrown : Option BindError
  resetPeerCalled : Bool
  broadcastInstalled : Bool
  deriving Repr

/-- Source `WorkerBroker.bindWorker(credential)`.  An absent credential is only
logged (`No credential ... bound to the broker.`) and the call returns
normally; a present non-`PENDING` credential throws; otherwise the delegate
`init` runs (outcome `initOk`): on failure `resetPeer` is called and the error
rethrown with the map untouched, on success the entry is rebound to `BOUND`
with a fresh `Worker`, the worker joins the heap, `ContainerInstalled` is
broadcast and the queue is drained via `tryConsumeQueue`.  (The source's
second `item.status !== PENDING` guard is unreachable after the
`isCredentialPending` check and is modelled by the same throw branch.) -/
def bindWorker (b : BrokerState) (credential : String) (initOk : Bool) : BindResult :=
  match mapGet b.workerMap credential with
  | none => ⟨b, none, false, false⟩
  | some item =>
    if isCredentialPending b credential = false then
      ⟨b, some .notRegisteredYet, false, false⟩
    else
      let w : Worker := ⟨item.name, credential, 0, false, b.profile.disposable⟩
      if initOk = false then
        ⟨b, some .initFailed, true, false⟩
      else
        let b' : BrokerState :=
          { b with
            workerMap := mapSet b.workerMap credential ⟨CredentialStatus.BOUND, item.name, some w⟩,
            workers := b.workers ++ [w] }
        ⟨(tryConsumeQueue b' w).1, none, false, true⟩

/-- C8 (amended).  `bindWorker` throws the not-registered error exactly when
the credential is present in the worker map with a non-`PENDING` status; an
absent credential is logged and the call returns without error and without
touching the state.  When the credential is `PENDING` and the delegate `init`
call fails, `resetPeer(credential)` is invoked, the error is propagated, and
the state — in particular the map entry, still `PENDING` with no `Worker`
attached — is unchanged. -/
theorem bindWorker_spec (b : BrokerState) (credential : String) (initOk : Bool) :
    (mapGet b.workerMap credential = none →
      bindWorker b credential initOk = ⟨b, none, false, false⟩) ∧
    (∀ item, mapGet b.workerMap credential = some item →
      item.status = CredentialStatus.BOUND →
      bindWorker b credential initOk = ⟨b, some .notRegisteredYet, false, false⟩) ∧
    (∀ item, mapGet b.workerMap credential = some item →
      item.status = CredentialStatus.PENDING →
      (bindWorker b credential false).state = b ∧
      (bindWorker b credential false).thrown = some .initFailed ∧
      (bindWorker b credential false).resetPeerCalled = true ∧
      mapGet (bindWorker b credential false).state.workerMap credential = some item) := by
  refine ⟨?_, ?_, ?_⟩
  · intro h
    unfold bindWorker
    rw [h]
  · intro item hit hst
    have hp : isCredentialPending b credential = false := by
      unfold isCredentialPending
      rw [hit]
      simp [hst]
    unfold bindWorker
    rw [hit]
    show (if isCredentialPending b credential = false then _ else _) = _
    rw [if_pos hp]
  · intro item hit hst
    have hp : isCredentialPending b credential = true := by
      unfold isCredentialPending
      rw [hit]
      simp [hst]
    have hb : bindWorker b credential false = ⟨b, some .initFailed, true, false⟩ := by
      unfold bindWorker
      rw [hit]
      show (if isCredentialPending b credential = false then _ else _) = _
      rw [if_neg (by rw [hp]; simp)]
      rfl
    rw [hb]
    exact ⟨rfl, rfl, rfl, hit⟩

def bBindEx : BrokerState :=
  ⟨pEx, [], .PASS_THROUGH, [], [("cred-1", ⟨CredentialStatus.PENDING, "worker-1", none⟩)]⟩

/-- C8 witness: binding the pending credential `cred-1` with a failing `init`
resets the peer, propagates the failure and leaves the `PENDING` entry
untouched; binding an absent credential returns without error. -/
theorem bindWorker_spec_witness :
    ((bindWorker bBindEx "cred-1" false).state = bBindEx ∧
      (bindWorker bBindEx "cred-1" false).thrown = some .initFailed ∧
      (bindWorker bBindEx "cred-1" false).resetPeerCalled = true ∧
      mapGet (bindWorker bBindEx "cred-1" false).state.workerMap "cred-1" =
        some ⟨CredentialStatus.PENDING, "worker-1", none⟩) ∧
    bindWorker bBindEx "missing" true = ⟨bBindEx, none, false, false⟩ :=
  ⟨(bindWorker_spec bBindEx "cred-1" false).2.2
      ⟨CredentialStatus.PENDING, "worker-1", none⟩ (by decide) rfl,
    (bindWorker_spec bBindEx "missing" true).1 (by decide)⟩

/-- C8 counterexample.  The claim requires `bindWorker` to fail with an error
whenever the credential is not in `Pending` state; but for a credential absent
from the worker map (hence not pending) the call logs and returns normally —
no error is thrown. -/
theorem bindWorker_missing_credential_counterexample :
    isCredentialPending bBindEx "missing" = false ∧
    (bindWorker bBindEx "missing" true).thrown = none := by
  constructor
  · decide
  · rfl

/-! ## Control plane: `DefaultController` shrink path -/

/-- Control-plane worker record (`worker_stats` `Worker`) as read by
`mostWhatNWorkers`: `isRunning()` is modelled by the `running` flag;
`activeRequestCount` stands for `data.activeRequestCount` (the `!`-asserted
data-plane stat). -/
structure SWorker where
  name : String
  credential : String
  registerTime : Nat
  activeRequestCount : Nat
  running : Bool
  deriving DecidableEq, Repr

/-- Control-plane broker view (`worker_stats` `Broker`) as read by `doShrink`
and `shrinkDraw`: `shrinkStrategy` stands for
`broker.data?.worker?.shrinkStrategy`. -/
structure SBroker where
  name : String
  isInspector : Bool
  disposable : Bool
  workers : List SWorker
  shrinkStrategy : Option String
  deriving DecidableEq, Repr

/-- The `{name, credential}` pairs `mostWhatNWorkers` returns. -/
structure NameCred where
  name : String
  credential : String
  deriving DecidableEq, Repr

/-- The comparator of `mostIdleNWorkers` (LCC): ascending
`data.activeRequestCount`, ties broken ascending on `credential`. -/
def cmpIdle (a b : SWorker) : Int :=
  if a.activeRequestCount < b.activeRequestCount then -1
  else if a.activeRequestCount > b.activeRequestCount then 1
  else if a.credential < b.credential then -1
  else 1

/-- The comparator of `newestNWorkers` (FILO): descending `registerTime`,
ties broken ascending on `credential`. -/
def cmpNewest (a b : SWorker) : Int :=
  if a.registerTime > b.registerTime then -1
  else if a.registerTime < b.registerTime then 1
  else if a.credential < b.credential then -1
  else 1

/-- The comparator of `oldestNWorkers` (FIFO): ascending `registerTime`,
ties broken ascending on `credential`. -/
def cmpOldest (a b : SWorker) : Int :=
  if a.registerTime < b.registerTime then -1
  else if a.registerTime > b.registerTime then 1
  else if a.credential < b.credential then -1
  else 1

/-- Insert into a sorted run, before the first element the comparator places
after `x`. -/
def insertCmp (cmp : SWorker → SWorker → Int) (x : SWorker) : List SWorker → List SWorker
  | [] => [x]
  | y :: ys => if cmp x y < 0 then x :: y :: ys else y :: insertCmp cmp x ys

/-- Source `Array.prototype.sort(compareFn)` as a stable comparison sort (ES2019
requires sort stability; the three comparators above never return 0, so for
credential-distinct inputs the sorted order is unique anyway). -/
def sortCmp (cmp : SWorker → SWorker → Int) : List SWorker → List SWorker
  | [] => []
  | x :: xs => insertCmp cmp x (sortCmp cmp xs)

/-- Source `DefaultController.mostWhatNWorkers(broker, n, compareFn)`: filter to
`isRunning()` workers, sort by the comparator, take `n`, and project
`{name, credential}`. -/
def mostWhatNWorkers (broker : SBroker) (n : Nat) (cmp : SWorker → SWorker → Int) :
    List NameCred :=
  let workers := broker.workers.filter (fun w => w.running)
  ((sortCmp cmp workers).take n).map (fun w => ⟨w.name, w.credential⟩)

/-- Source `DefaultController.mostIdleNWorkers` (strategy LCC). -/
def mostIdleNWorkers (broker : SBroker) (n : Nat) : List NameCred :=
  mostWhatNWorkers broker n cmpIdle

/-- Source `DefaultController.newestNWorkers` (strategy FILO). -/
def newestNWorkers (broker : SBroker) (n : Nat) : List NameCred :=
  mostWhatNWorkers broker n cmpNewest

/-- Source `DefaultController.oldestNWorkers` (strategy FIFO). -/
def oldestNWorkers (broker : SBroker) (n : Nat) : List NameCred :=
  mostWhatNWorkers broker n cmpOldest

/-- Source `DefaultController.shrinkDraw(broker, countToChoose)`: the strategy is
`broker.data.worker?.shrinkStrategy` when broker data is present, else
`config.worker.defaultShrinkStrategy`; `FILO` and `FIFO` select newest/oldest,
everything else (including unsupported values, after a warning) falls back to
LCC. -/
def shrinkDraw (defaultShrinkStrategy : String) (broker : SBroker) (countToChoose : Nat) :
    List NameCred :=
  let strategy := broker.shrinkStrategy.getD defaultShrinkStrategy
  if strategy = "FILO" then newestNWorkers broker countToChoose
  else if strategy = "FIFO" then oldestNWorkers broker countToChoose
  else mostIdleNWorkers broker countToChoose

/-- A capacity delta handed to `doShrink`: negative `count` asks the broker to
retire `|count|` workers. -/
structure Delta where
  count : Int
  broker : SBroker
  deriving DecidableEq, Repr

/-- One entry of the single `reduceCapacity` payload assembled by `doShrink`. -/
structure ShrinkEntry where
  functionName : String
  inspector : Bool
  workers : List NameCred
  deriving DecidableEq, Repr

/-- One worker of the data plane's `reduceCapacity` response. -/
structure EnsuredWorker where
  name : String
  credential : String
  deriving DecidableEq, Repr

/-- One broker of the data plane's `reduceCapacity` response. -/
structure EnsuredBroker where
  functionName : String
  inspector : Bool
  workers : List EnsuredWorker
  deriving DecidableEq, Repr

/-- A control-plane worker record as found by `stateManager.getWorker`. -/
structure StateWorkerRecord where
  credential : String
  deriving DecidableEq, Repr

/-- The first loop of `doShrink`: skip deltas with `count >= 0`, inspector
brokers and disposable brokers; for the rest draw `Math.abs(count)` victims
via `shrinkDraw` and collect one `reduceCapacity` entry per qualifying
delta. -/
def collectShrinkData (defaultShrinkStrategy : String) : List Delta → List ShrinkEntry
  | [] => []
  | d :: ds =>
    if 0 ≤ d.count then collectShrinkData defaultShrinkStrategy ds
    else if d.broker.isInspector then collectShrinkData defaultShrinkStrategy ds
    else if d.broker.disposable then collectShrinkData defaultShrinkStrategy ds
    else
      ⟨d.broker.name, d.broker.isInspector,
        shrinkDraw defaultShrinkStrategy d.broker d.count.natAbs⟩ ::
        collectShrinkData defaultShrinkStrategy ds

/-- The guard of the second loop of `doShrink`: the worker named in the
response still has a control-plane record (`stateManager.getWorker`) and its
credential still matches (re-registration race guard).  `getW` models
`stateManager.getWorker(functionName, inspector, name)`. -/
def credMatches (getW : String → Bool → String → Option StateWorkerRecord)
    (br : EnsuredBroker) (w : EnsuredWorker) : Bool :=
  match getW br.functionName br.inspector w.name with
  | none => false
  | some record => decide (record.credential = w.credential)

/-- The second loop of `doShrink`: for every worker of every response broker
that passes `credMatches`, mark the record `Shrink` and schedule
`stopWorker(name)`. -/
def collectHits (getW : String → Bool → String → Option StateWorkerRecord) :
    List EnsuredBroker → List EnsuredWorker
  | [] => []
  | br :: rest => br.workers.filter (credMatches getW br) ++ collectHits getW rest

/-- Observable effects of one `doShrink` run: the payload of each
`reduceCapacity` call made, the names marked `Shrink`
(`updateWorkerStatusByControlPlaneEvent`), and the names passed to
`stopWorker`. -/
structure DoShrinkResult where
  reduceCalls : List (List ShrinkEntry)
  markedShrink : List String
  stopped : List String
  deriving DecidableEq, Repr

/-- Source `DefaultController.doShrink(deltas)`.  `reduce` models the data plane's
`reduceCapacity` response for a given payload. -/
def doShrink (defaultShrinkStrategy : String)
    (getW : String → Bool → String → Option StateWorkerRecord)
    (reduce : List ShrinkEntry → List EnsuredBroker) (deltas : List Delta) :
    DoShrinkResult :=
  let shrinkData := collectShrinkData defaultShrinkStrategy deltas
  if shrinkData.isEmpty then ⟨[], [], []⟩
  else
    let ensured := reduce shrinkData
    if ensured.isEmpty then ⟨[shrinkData], [], []⟩
    else
      let hits := collectHits getW ensured
      ⟨[shrinkData], hits.map (fun w => w.name), hits.map (fun w => w.name)⟩

theorem insertCmp_perm (cmp : SWorker → SWorker → Int) (x : SWorker) (l : List SWorker) :
    List.Perm (insertCmp cmp x l) (x :: l) := by
  induction l with
  | nil => exact List.Perm.refl _
  | cons y ys ih =>
    by_cases h : cmp x y < 0
    · simp only [insertCmp, if_pos h]
      exact List.Perm.refl _
    · simp only [insertCmp, if_neg h]
      exact (ih.cons y).trans (List.Perm.swap x y ys)

theorem sortCmp_perm (cmp : SWorker → SWorker → Int) (l : List SWorker) :
    List.Perm (sortCmp cmp l) l := by
  induction l with
  | nil => exact List.Perm.refl _
  | cons x xs ih => exact (insertCmp_perm cmp x (sortCmp cmp xs)).trans (ih.cons x)

theorem insertCmp_pairwise (cmp : SWorker → SWorker → Int)
    (hval : ∀ a b, cmp a b = -1 ∨ cmp a b = 1)
    (hasym : ∀ a b, cmp a b = -1 → cmp b a = 1)
    (htrans : ∀ a b c, cmp a b = 1 → cmp b c = 1 → cmp a c = 1)
    (x : SWorker) (l : List SWorker)
    (hl : l.Pairwise (fun a b => cmp b a = 1)) :
    (insertCmp cmp x l).Pairwise (fun a b => cmp b a = 1) := by
  induction l with
  | nil => simp [insertCmp]
  | cons y ys ih =>
    rcases List.pairwise_cons.1 hl with ⟨hy, hys⟩
    by_cases h : cmp x y < 0
    · simp only [insertCmp, if_pos h]
      have hxy : cmp x y = -1 := by
        rcases hval x y with h1 | h1
        · exact h1
        · omega
      refine List.pairwise_cons.2 ⟨?_, hl⟩
      intro z hz
      rcases List.mem_cons.1 hz with hzy | hz'
      · rw [hzy]
        exact hasym x y hxy
      · exact htrans z y x (hy z hz') (hasym x y hxy)
    · simp only [insertCmp, if_neg h]
      have hxy : cmp x y = 1 := by
        rcases hval x y with h1 | h1
        · omega
        · exact h1
      refine List.pairwise_cons.2 ⟨?_, ih hys⟩
      intro z hz
      rcases List.mem_cons.1 ((insertCmp_perm cmp x ys).mem_iff.1 hz) with hzx | hz'
      · rw [hzx]
        exact hxy
      · exact hy z hz'

theorem sortCmp_pairwise (cmp : SWorker → SWorker → Int)
    (hval : ∀ a b, cmp a b = -1 ∨ cmp a b = 1)
    (hasym : ∀ a b, cmp a b = -1 → cmp b a = 1)
    (htrans : ∀ a b c, cmp a b = 1 → cmp b c = 1 → cmp a c = 1)
    (l : List SWorker) :
    (sortCmp cmp l).Pairwise (fun a b => cmp b a = 1) := by
  induction l with
  | nil => simp [sortCmp]
  | cons x xs ih => exact insertCmp_pairwise cmp hval hasym htrans x _ ih

theorem cmp_one_iff {γ : Type} [LinearOrder γ] (g : SWorker → γ)
    (cmp : SWorker → SWorker → Int)
    (hneg : ∀ a b, cmp a b = -1 ↔ g a < g b)
    (hval : ∀ a b, cmp a b = -1 ∨ cmp a b = 1)
    (a b : SWorker) : cmp a b = 1 ↔ g b ≤ g a := by
  constructor
  · intro h
    rcases le_or_lt (g b) (g a) with hle | hlt
    · exact hle
    · have h2 := (hneg a b).2 hlt
      omega
  · intro h
    rcases hval a b with h1 | h1
    · exact absurd ((hneg a b).1 h1) (not_lt.2 h)
    · exact h1

theorem sortCmp_sorted_lt {γ : Type} [LinearOrder γ] (g : SWorker → γ)
    (cmp : SWorker → SWorker → Int)
    (hneg : ∀ a b, cmp a b = -1 ↔ g a < g b)
    (hval : ∀ a b, cmp a b = -1 ∨ cmp a b = 1)
    (hg : ∀ a b, g a = g b → a.credential = b.credential)
    (l : List SWorker)
    (hnd : l.Pairwise (fun a b => a.credential ≠ b.credential)) :
    (sortCmp cmp l).Pairwise (fun a b => g a < g b) := by
  have hasym : ∀ a b, cmp a b = -1 → cmp b a = 1 := fun a b h =>
    (cmp_one_iff g cmp hneg hval b a).2 (le_of_lt ((hneg a b).1 h))
  have htrans : ∀ a b c, cmp a b = 1 → cmp b c = 1 → cmp a c = 1 := fun a b c h1 h2 =>
    (cmp_one_iff g cmp hneg hval a c).2
      (le_trans ((cmp_one_iff g cmp hneg hval b c).1 h2)
        ((cmp_one_iff g cmp hneg hval a b).1 h1))
  have hp := sortCmp_pairwise cmp hval hasym htrans l
  have hnd' : (sortCmp cmp l).Pairwise (fun a b => a.credential ≠ b.credential) :=
    ((sortCmp_perm cmp l).pairwise_iff (fun h he => h he.symm)).2 hnd
  refine (hp.and hnd').imp ?_
  intro a b hab
  exact lt_of_le_of_ne ((cmp_one_iff g cmp hneg hval b a).1 hab.1)
    (fun he => hab.2 (hg a b he))

/-- The claim-side FIFO order: strictly older `registerTime` first, ties
broken lexicographically ascending on `credential`. -/
def oldestFirst (a b : SWorker) : Prop :=
  a.registerTime < b.registerTime ∨
    (a.registerTime = b.registerTime ∧ a.credential < b.credential)

/-- The claim-side FILO order: strictly newer `registerTime` first, ties
broken lexicographically ascending on `credential`. -/
def newestFirst (a b : SWorker) : Prop :=
  b.registerTime < a.registerTime ∨
    (a.registerTime = b.registerTime ∧ a.credential < b.credential)

/-- The claim-side LCC order: strictly smaller `activeRequestCount` first,
ties broken lexicographically ascending on `credential`. -/
def leastActiveFirst (a b : SWorker) : Prop :=
  a.activeRequestCount < b.activeRequestCount ∨
    (a.activeRequestCount = b.activeRequestCount ∧ a.credential < b.credential)

theorem cmpOldest_neg_iff (a b : SWorker) :
    cmpOldest a b = -1 ↔
      toLex (a.registerTime, a.credential) < toLex (b.registerTime, b.credential) := by
  rw [Prod.Lex.lt_iff]
  show cmpOldest a b = -1 ↔ a.registerTime < b.registerTime ∨
    a.registerTime = b.registerTime ∧ a.credential < b.credential
  unfold cmpOldest
  split_ifs with h1 h2 h3
  · simp [h1]
  · constructor
    · intro hc
      exact absurd hc (by decide)
    · rintro (hlt | ⟨heq, hc⟩) <;> omega
  · constructor
    · intro _
      exact Or.inr ⟨by omega, h3⟩
    · intro _
      rfl
  · constructor
    · intro hc
      exact absurd hc (by decide)
    · rintro (hlt | ⟨heq, hc⟩)
      · omega
      · exact absurd hc h3

theorem cmpOldest_val (a b : SWorker) : cmpOldest a b = -1 ∨ cmpOldest a b = 1 := by
  unfold cmpOldest
  split_ifs <;> simp

theorem cmpNewest_neg_iff (a b : SWorker) :
    cmpNewest a b = -1 ↔
      toLex (OrderDual.toDual a.registerTime, a.credential) <
        toLex (OrderDual.toDual b.registerTime, b.credential) := by
  rw [Prod.Lex.lt_iff]
  show cmpNewest a b = -1 ↔
    OrderDual.toDual a.registerTime < OrderDual.toDual b.registerTime ∨
      OrderDual.toDual a.registerTime = OrderDual.toDual b.registerTime ∧
        a.credential < b.credential
  rw [OrderDual.toDual_lt_toDual, OrderDual.toDual_inj]
  unfold cmpNewest
  split_ifs with h1 h2 h3
  · simp only [gt_iff_lt] at h1
    simp [h1]
  · constructor
    · intro hc
      exact absurd hc (by decide)
    · rintro (hlt | ⟨heq, hc⟩) <;> omega
  · constructor
    · intro _
      exact Or.inr ⟨by omega, h3⟩
    · intro _
      rfl
  · constructor
    · intro hc
      exact absurd hc (by decide)
    · rintro (hlt | ⟨heq, hc⟩)
      · omega
      · exact absurd hc h3

theorem cmpNewest_val (a b : SWorker) : cmpNewest a b = -1 ∨ cmpNewest a b = 1 := by
  unfold cmpNewest
  split_ifs <;> simp

theorem cmpIdle_neg_iff (a b : SWorker) :
    cmpIdle a b = -1 ↔
      toLex (a.activeRequestCount, a.credential) <
        toLex (b.activeRequestCount, b.credential) := by
  rw [Prod.Lex.lt_iff]
  show cmpIdle a b = -1 ↔ a.activeRequestCount < b.activeRequestCount ∨
    a.activeRequestCount = b.activeRequestCount ∧ a.credential < b.credential
  unfold cmpIdle
  split_ifs with h1 h2 h3
  · simp [h1]
  · constructor
    · intro hc
      exact absurd hc (by decide)
    · rintro (hlt | ⟨heq, hc⟩) <;> omega
  · constructor
    · intro _
      exact Or.inr ⟨by omega, h3⟩
    · intro _
      rfl
  · constructor
    · intro hc
      exact absurd hc (by decide)
    · rintro (hlt | ⟨heq, hc⟩)
      · omega
      · exact absurd hc h3

theorem cmpIdle_val (a b : SWorker) : cmpIdle a b = -1 ∨ cmpIdle a b = 1 := by
  unfold cmpIdle
  split_ifs <;> simp

theorem sortCmp_oldest_pairwise (l : List SWorker)
    (hnd : l.Pairwise (fun a b => a.credential ≠ b.credential)) :
    (sortCmp cmpOldest l).Pairwise oldestFirst := by
  have h := sortCmp_sorted_lt (fun w => toLex (w.registerTime, w.credential)) cmpOldest
    cmpOldest_neg_iff cmpOldest_val
    (fun a b he => congrArg (fun p => (ofLex p).2) he) l hnd
  refine h.imp ?_
  intro a b hab
  rw [Prod.Lex.lt_iff] at hab
  exact hab

theorem sortCmp_newest_pairwise (l : List SWorker)
    (hnd : l.Pairwise (fun a b => a.credential ≠ b.credential)) :
    (sortCmp cmpNewest l).Pairwise newestFirst := by
  have h := sortCmp_sorted_lt
    (fun w => toLex (OrderDual.toDual w.registerTime, w.credential)) cmpNewest
    cmpNewest_neg_iff cmpNewest_val
    (fun a b he => congrArg (fun p => (ofLex p).2) he) l hnd
  refine h.imp ?_
  intro a b hab
  rw [Prod.Lex.lt_iff] at hab
  rcases hab with h1 | ⟨h1, h2⟩
  · exact Or.inl (OrderDual.toDual_lt_toDual.1 h1)
  · exact Or.inr ⟨OrderDual.toDual_inj.1 h1, h2⟩

theorem sortCmp_idle_pairwise (l : List SWorker)
    (hnd : l.Pairwise (fun a b => a.credential ≠ b.credential)) :
    (sortCmp cmpIdle l).Pairwise leastActiveFirst := by
  have h := sortCmp_sorted_lt (fun w => toLex (w.activeRequestCount, w.credential)) cmpIdle
    cmpIdle_neg_iff cmpIdle_val
    (fun a b he => congrArg (fun p => (ofLex p).2) he) l hnd
  refine h.imp ?_
  intro a b hab
  rw [Prod.Lex.lt_iff] at hab
  exact hab

theorem mostWhatNWorkers_length (broker : SBroker) (n : Nat) (cmp : SWorker → SWorker → Int) :
    (mostWhatNWorkers broker n cmp).length ≤
      min n (broker.workers.filter (fun w => w.running)).length := by
  unfold mostWhatNWorkers
  rw [List.length_map, List.length_take, (sortCmp_perm cmp _).length_eq]

theorem mostWhatNWorkers_mem (broker : SBroker) (n : Nat) (cmp : SWorker → SWorker → Int) :
    ∀ p ∈ mostWhatNWorkers broker n cmp,
      ∃ w, w ∈ broker.workers ∧ w.running = true ∧ p = ⟨w.name, w.credential⟩ := by
  intro p hp
  unfold mostWhatNWorkers at hp
  rcases List.mem_map.1 hp with ⟨w, hw, hpw⟩
  have hw2 := (sortCmp_perm cmp _).mem_iff.1 (List.mem_of_mem_take hw)
  rcases List.mem_filter.1 hw2 with ⟨hmem, hrun⟩
  exact ⟨w, hmem, hrun, hpw.symm⟩

/-- C6.  `shrinkDraw` (a pure function of the configured default strategy, the
broker state and the count, hence deterministic) only draws workers currently
`Running`; its result has at most `min n runningWorkers` entries; for
credential-distinct worker sets it lists, in order, a take-`n` prefix of the
running workers sorted oldest-`registerTime`-first under `FIFO`,
newest-first under `FILO`, and least-`activeRequestCount`-first for any other
strategy value (the LCC fallback), all ties broken ascending on
`credential`. -/
theorem shrinkDraw_spec (cfg : String) (br : SBroker) (n : Nat)
    (hnd : (br.workers.filter (fun w => w.running)).Pairwise
      (fun a b => a.credential ≠ b.credential)) :
    (shrinkDraw cfg br n).length ≤
      min n (br.workers.filter (fun w => w.running)).length ∧
    (∀ p ∈ shrinkDraw cfg br n,
      ∃ w, w ∈ br.workers ∧ w.running = true ∧ p = ⟨w.name, w.credential⟩) ∧
    (br.shrinkStrategy.getD cfg = "FIFO" →
      shrinkDraw cfg br n =
        ((sortCmp cmpOldest (br.workers.filter (fun w => w.running))).take n).map
          (fun w => ⟨w.name, w.credential⟩) ∧
      (sortCmp cmpOldest (br.workers.filter (fun w => w.running))).Pairwise oldestFirst) ∧
    (br.shrinkStrategy.getD cfg = "FILO" →
      shrinkDraw cfg br n =
        ((sortCmp cmpNewest (br.workers.filter (fun w => w.running))).take n).map
          (fun w => ⟨w.name, w.credential⟩) ∧
      (sortCmp cmpNewest (br.workers.filter (fun w => w.running))).Pairwise newestFirst) ∧
    (br.shrinkStrategy.getD cfg ≠ "FIFO" → br.shrinkStrategy.getD cfg ≠ "FILO" →
      shrinkDraw cfg br n = mostIdleNWorkers br n ∧
      (sortCmp cmpIdle (br.workers.filter (fun w => w.running))).Pairwise leastActiveFirst) := by
  refine ⟨?_, ?_, ?_, ?_, ?_⟩
  · show (if br.shrinkStrategy.getD cfg = "FILO" then newestNWorkers br n
      else if br.shrinkStrategy.getD cfg = "FIFO" then oldestNWorkers br n
      else mostIdleNWorkers br n).length ≤ _
    split_ifs
    · exact mostWhatNWorkers_length br n cmpNewest
    · exact mostWhatNWorkers_length br n cmpOldest
    · exact mostWhatNWorkers_length br n cmpIdle
  · intro p hp
    have hp' : p ∈ (if br.shrinkStrategy.getD cfg = "FILO" then newestNWorkers br n
      else if br.shrinkStrategy.getD cfg = "FIFO" then oldestNWorkers br n
      else mostIdleNWorkers br n) := hp
    split_ifs at hp'
    · exact mostWhatNWorkers_mem br n cmpNewest p hp'
    · exact mostWhatNWorkers_mem br n cmpOldest p hp'
    · exact mostWhatNWorkers_mem br n cmpIdle p hp'
  · intro hs
    constructor
    · show (if br.shrinkStrategy.getD cfg = "FILO" then newestNWorkers br n
        else if br.shrinkStrategy.getD cfg = "FIFO" then oldestNWorkers br n
        else mostIdleNWorkers br n) = _
      rw [hs, if_neg (by decide), if_pos rfl]
      rfl
    · exact sortCmp_oldest_pairwise _ hnd
  · intro hs
    constructor
    · show (if br.shrinkStrategy.getD cfg = "FILO" then newestNWorkers br n
        else if br.shrinkStrategy.getD cfg = "FIFO" then oldestNWorkers br n
        else mostIdleNWorkers br n) = _
      rw [hs, if_pos rfl]
      rfl
    · exact sortCmp_newest_pairwise _ hnd
  · intro hs1 hs2
    constructor
    · show (if br.shrinkStrategy.getD cfg = "FILO" then newestNWorkers br n
        else if br.shrinkStrategy.getD cfg = "FIFO" then oldestNWorkers br n
        else mostIdleNWorkers br n) = _
      rw [if_neg hs2, if_neg hs1]
    · exact sortCmp_idle_pairwise _ hnd

def brLambdaEx : SBroker :=
  ⟨"lambda", false, false,
    [⟨"coco", "cred-coco", 10, 3, true⟩,
      ⟨"cocos", "cred-cocos", 11, 1, true⟩,
      ⟨"alibaba", "cred-alibaba", 12, 2, true⟩],
    none⟩

/-- C6 witness: with the default LCC strategy over three running workers with
counts 3, 1, 2, drawing two victims selects the two least-loaded workers
`cocos` then `alibaba`, within the length bound and the strict LCC order. -/
theorem shrinkDraw_spec_witness :
    (shrinkDraw "LCC" brLambdaEx 2).length ≤
      min 2 (brLambdaEx.workers.filter (fun w => w.running)).length ∧
    (shrinkDraw "LCC" brLambdaEx 2 = mostIdleNWorkers brLambdaEx 2 ∧
      (sortCmp cmpIdle (brLambdaEx.workers.filter (fun w => w.running))).Pairwise
        leastActiveFirst) ∧
    shrinkDraw "LCC" brLambdaEx 2 =
      [⟨"cocos", "cred-cocos"⟩, ⟨"alibaba", "cred-alibaba"⟩] := by
  have h := shrinkDraw_spec "LCC" brLambdaEx 2 (by decide)
  exact ⟨h.1, h.2.2.2.2 (by decide) (by decide), by decide⟩

/-- A delta survives the three skip guards of `doShrink`: it asks to shrink
(`count < 0`), its broker is not an inspector broker, and not disposable. -/
def qualifiesForShrink (d : Delta) : Bool :=
  decide (d.count < 0) && !d.broker.isInspector && !d.broker.disposable

theorem collectShrinkData_eq (cfg : String) (deltas : List Delta) :
    collectShrinkData cfg deltas =
      (deltas.filter qualifiesForShrink).map
        (fun d => ⟨d.broker.name, d.broker.isInspector,
          shrinkDraw cfg d.broker d.count.natAbs⟩) := by
  induction deltas with
  | nil => rfl
  | cons d ds ih =>
    rw [List.filter_cons]
    by_cases h1 : (0 : Int) ≤ d.count
    · have hq : qualifiesForShrink d = false := by
        unfold qualifiesForShrink
        simp [Int.not_lt.2 h1]
      rw [if_neg (by simp [hq])]
      simp only [collectShrinkData, if_pos h1]
      exact ih
    · by_cases h2 : d.broker.isInspector = true
      · have hq : qualifiesForShrink d = false := by
          unfold qualifiesForShrink
          simp [h2]
        rw [if_neg (by simp [hq])]
        simp only [collectShrinkData, if_neg h1, if_pos h2]
        exact ih
      · by_cases h3 : d.broker.disposable = true
        · have hq : qualifiesForShrink d = false := by
            unfold qualifiesForShrink
            simp [h3]
          rw [if_neg (by simp [hq])]
          simp only [collectShrinkData, if_neg h1, if_neg h2, if_pos h3]
          exact ih
        · have hq : qualifiesForShrink d = true := by
            unfold qualifiesForShrink
            simp [Int.not_le.1 h1, Bool.eq_false_iff.2 h2, Bool.eq_false_iff.2 h3]
          rw [if_pos (by simp [hq])]
          simp only [collectShrinkData, if_neg h1, if_neg h2, if_neg h3, List.map_cons]
          rw [ih]

theorem mem_collectHits (getW : String → Bool → String → Option StateWorkerRecord)
    (ensured : List EnsuredBroker) (w : EnsuredWorker) :
    w ∈ collectHits getW ensured ↔
      ∃ br, br ∈ ensured ∧ w ∈ br.workers ∧ credMatches getW br w = true := by
  induction ensured with
  | nil => simp [collectHits]
  | cons br rest ih =>
    simp only [collectHits, List.mem_append, List.mem_filter, ih]
    constructor
    · rintro (⟨hw, hm⟩ | ⟨br', hbr', hw', hm'⟩)
      · exact ⟨br, List.mem_cons_self br rest, hw, hm⟩
      · exact ⟨br', List.mem_cons_of_mem br hbr', hw', hm'⟩
    · rintro ⟨br', hbr', hw', hm'⟩
      rcases List.mem_cons.1 hbr' with h | h
      · subst h
        exact Or.inl ⟨hw', hm'⟩
      · exact Or.inr ⟨br', h, hw', hm'⟩

/-- C5.  `doShrink` skips every delta with `count ≥ 0`, every inspector broker
and every disposable broker; the remaining deltas each contribute
`shrinkDraw(broker, |count|)` victims to a single batched `reduceCapacity`
payload — the call is made exactly once when some delta qualifies and never
otherwise; `stopWorker` is invoked exactly for the workers of the
`reduceCapacity` response whose control-plane record exists and whose
credential still matches, and exactly those records are marked `Shrink`. -/
theorem doShrink_spec (cfg : String)
    (getW : String → Bool → String → Option StateWorkerRecord)
    (reduce : List ShrinkEntry → List EnsuredBroker) (deltas : List Delta) :
    (collectShrinkData cfg deltas =
      (deltas.filter qualifiesForShrink).map
        (fun d => ⟨d.broker.name, d.broker.isInspector,
          shrinkDraw cfg d.broker d.count.natAbs⟩)) ∧
    ((∀ d ∈ deltas, qualifiesForShrink d = false) →
      doShrink cfg getW reduce deltas = ⟨[], [], []⟩) ∧
    ((∃ d, d ∈ deltas ∧ qualifiesForShrink d = true) →
      (doShrink cfg getW reduce deltas).reduceCalls = [collectShrinkData cfg deltas]) ∧
    (doShrink cfg getW reduce deltas).markedShrink =
      (doShrink cfg getW reduce deltas).stopped ∧
    (∀ nm, nm ∈ (doShrink cfg getW reduce deltas).stopped ↔
      (collectShrinkData cfg deltas ≠ [] ∧
        ∃ br, br ∈ reduce (collectShrinkData cfg deltas) ∧
          ∃ w, w ∈ br.workers ∧ w.name = nm ∧ credMatches getW br w = true)) := by
  refine ⟨collectShrinkData_eq cfg deltas, ?_, ?_, ?_, ?_⟩
  · intro hall
    have hnil : collectShrinkData cfg deltas = [] := by
      rw [collectShrinkData_eq]
      rw [List.map_eq_nil_iff, List.filter_eq_nil_iff]
      intro d hd
      simp [hall d hd]
    unfold doShrink
    rw [hnil]
    rfl
  · intro hex
    have hne : collectShrinkData cfg deltas ≠ [] := by
      rw [collectShrinkData_eq]
      rcases hex with ⟨d, hd, hq⟩
      intro hc
      rw [List.map_eq_nil_iff, List.filter_eq_nil_iff] at hc
      exact absurd hq (by simpa using hc d hd)
    unfold doShrink
    rw [if_neg (by simpa [List.isEmpty_iff] using hne)]
    by_cases he : (reduce (collectShrinkData cfg deltas)).isEmpty = true
    · rw [if_pos he]
    · rw [if_neg he]
  · simp only [doShrink]
    split_ifs <;> rfl
  · intro nm
    unfold doShrink
    by_cases hnil : (collectShrinkData cfg deltas).isEmpty = true
    · rw [if_pos hnil]
      simp only [List.not_mem_nil, false_iff, not_and]
      intro hne
      exact absurd (List.isEmpty_iff.1 hnil) hne
    · rw [if_neg hnil]
      have hne : collectShrinkData cfg deltas ≠ [] := by
        intro hc
        exact hnil (by simp [hc])
      by_cases he : (reduce (collectShrinkData cfg deltas)).isEmpty = true
      · rw [if_pos he]
        simp only [List.not_mem_nil, false_iff, not_and]
        intro _
        rintro ⟨br, hbr, _⟩
        rw [List.isEmpty_iff.1 he] at hbr
        exact List.not_mem_nil br hbr
      · rw [if_neg he]
        simp only [List.mem_map]
        constructor
        · rintro ⟨w, hw, hwn⟩
          rcases (mem_collectHits getW _ w).1 hw with ⟨br, hbr, hw', hm'⟩
          exact ⟨hne, br, hbr, w, hw', hwn, hm'⟩
        · rintro ⟨_, br, hbr, w, hw', hwn, hm'⟩
          exact ⟨w, (mem_collectHits getW _ w).2 ⟨br, hbr, hw', hm'⟩, hwn⟩

def deltasEx : List Delta :=
  [⟨2, ⟨"func", false, false, [⟨"hello", "cred-hello", 1, 10, true⟩], none⟩⟩,
    ⟨-2, brLambdaEx⟩,
    ⟨-1, ⟨"inspector-fn", true, false, [⟨"iw", "cred-iw", 1, 0, true⟩], none⟩⟩,
    ⟨-1, ⟨"disposable-fn", false, true, [⟨"dw", "cred-dw", 1, 0, true⟩], none⟩⟩]

def getWEx : String → Bool → String → Option StateWorkerRecord :=
  fun fn _ nm =>
    if fn = "lambda" ∧ nm = "cocos" then some ⟨"cred-cocos"⟩
    else if fn = "lambda" ∧ nm = "alibaba" then some ⟨"stale-credential"⟩
    else none

def reduceEx : List ShrinkEntry → List EnsuredBroker :=
  fun _ => [⟨"lambda", false, [⟨"cocos", "cred-cocos"⟩, ⟨"alibaba", "cred-alibaba"⟩]⟩]

/-- C5 witness: of four deltas only the `lambda` shrink qualifies (the

expansion, the inspector broker and the disposable broker are skipped); one
`reduceCapacity` call carries its two LCC victims; of the response only
`cocos` — whose record exists with a matching credential — is stopped and
marked, while `alibaba` (stale credential) is not. -/
theorem doShrink_spec_witness :
    (doShrink "LCC" getWEx reduceEx deltasEx).reduceCalls =
      [collectShrinkData "LCC" deltasEx] ∧
    collectShrinkData "LCC" deltasEx =
      [⟨"lambda", false, [⟨"cocos", "cred-cocos"⟩, ⟨"alibaba", "cred-alibaba"⟩]⟩] ∧
    (doShrink "LCC" getWEx reduceEx deltasEx).markedShrink =
      (doShrink "LCC" getWEx reduceEx deltasEx).stopped ∧
    ("cocos" ∈ (doShrink "LCC" getWEx reduceEx deltasEx).stopped ∧
      (doShrink "LCC" getWEx reduceEx deltasEx).stopped = ["cocos"]) := by
  have h := doShrink_spec "LCC" getWEx reduceEx deltasEx
  refine ⟨h.2.2.1 ⟨⟨-2, brLambdaEx⟩, by decide, by decide⟩, by decide, h.2.2.2.1, ?_, by decide⟩
  exact (h.2.2.2.2 "cocos").2 (by decide)

end Noslated
